import Mathlib

/-!
Verification of the tf2onnx loop-rewriter core and the duplicate-node
merge optimizer, as a shallow embedding of
`tf2onnx/optimizer/merge_duplicated_nodes_optimizer.py` and
`tf2onnx/rewriter/loop_rewriter_base.py`.

Graphs are modelled as a list of nodes plus the declared output tensor-id
list.  A node carries the fields the two passes consume: stable name,
operator type tag, ordered input tensor-id list, ordered output tensor-id
list, attribute map (modelled as an association list compared for exact
equality, matching `node.attr == other.attr`), and the two predicates
`is_graph_input` / `is_const`.  Graph-mutation primitives
(`replace_all_inputs`, `remove_node`, `find_output_consumers`,
`get_node_by_output`) are modelled from the Graph Collaborator contract of
the specification (section 6): they live in the repository's `graph.py`,
which is outside the two source files.
-/

set_option autoImplicit false

namespace TfOnnx

structure Node where
  name : String
  type : String
  input : List String
  output : List String
  attr : List (String × String) := []
  isGraphInput : Bool := false
  isConst : Bool := false
deriving Repr, DecidableEq

structure Graph where
  nodes : List Node
  outputs : List String
deriving Repr, DecidableEq

/-- Graph Collaborator: enumerate all nodes (`graph.get_nodes()`). -/
def Graph.getNodes (g : Graph) : List Node := g.nodes

/-- Graph Collaborator: find all consumer nodes of a given output tensor id
(`graph.find_output_consumers(tid)`). -/
def Graph.findOutputConsumers (g : Graph) (tid : String) : List Node :=
  g.nodes.filter (fun n => n.input.contains tid)

/-- Graph Collaborator: resolve the node producing a given output tensor id
(`graph.get_node_by_output(tid)`), `none` when no node produces it. -/
def Graph.getNodeByOutput (g : Graph) (tid : String) : Option Node :=
  g.nodes.find? (fun n => n.output.contains tid)

/-- Replace every occurrence of `old` in one node's input list by `new`. -/
def replaceInput (old new : String) (n : Node) : Node :=
  { n with input := n.input.map (fun i => if i = old then new else i) }

/-- Graph Collaborator: `graph.replace_all_inputs(ops, old, new)` restricted to
the node set `ops`, here identified by node name.  The spec (section 6) states
the rewiring applies "across a given node set". -/
def Graph.replaceAllInputsIn (g : Graph) (names : List String) (old new : String) : Graph :=
  { g with nodes := g.nodes.map (fun n => if names.contains n.name then replaceInput old new n else n) }

/-- `graph.replace_all_inputs(graph.get_nodes(), old, new)`: rewiring applied to
every node currently in the graph. -/
def Graph.replaceAllInputsAll (g : Graph) (old new : String) : Graph :=
  { g with nodes := g.nodes.map (replaceInput old new) }

/-- Graph Collaborator: `graph.remove_node(name)`. -/
def Graph.removeNode (g : Graph) (name : String) : Graph :=
  { g with nodes := g.nodes.filter (fun n => ¬ n.name = name) }

/-- The `node.inputs` property: the producer node of each input tensor id,
resolved against the graph. -/
def Node.inputsOf (g : Graph) (n : Node) : List Node :=
  n.input.filterMap g.getNodeByOutput

/-!
## Duplicate-node merge optimizer
(`merge_duplicated_nodes_optimizer.py`)
-/

/-- `_len_of_node_output(node)`: the length of `node.output`, i.e. the number of
declared output entries of the node (not the number of consumed outputs). -/
def lenOfNodeOutput (n : Node) : Nat := n.output.length

/-- `_skip_node_type(node)`: identity nodes and graph inputs are never merged. -/
def skipNodeType (n : Node) : Bool := n.type = "Identity" || n.isGraphInput

/-- Stable descending insertion by key: the new element is placed after every
already-placed element whose key is at least as large.  Folding this over a
list reproduces Python's stable `list.sort(key=k, reverse=True)`. -/
def insertDescBy (k : Node → Nat) (n : Node) : List Node → List Node
  | [] => [n]
  | m :: rest => if k n ≤ k m then m :: insertDescBy k n rest else n :: m :: rest

/-- Stable descending sort by key (semantics of
`nodes.sort(key=self._len_of_node_output, reverse=True)`). -/
def sortDescBy (k : Node → Nat) (l : List Node) : List Node :=
  l.foldl (fun acc n => insertDescBy k n acc) []

/-- One step of `_group_nodes_by_type_inputs`: append `n` to the bucket of key
`(n.type, n.input)`, creating the bucket at the end on first occurrence
(`defaultdict(list)` preserves key insertion order). -/
def addToGroups : List ((String × List String) × List Node) → Node →
    List ((String × List String) × List Node)
  | [], n => [((n.type, n.input), [n])]
  | (key, ns) :: rest, n =>
    if key = (n.type, n.input) then (key, ns ++ [n]) :: rest
    else (key, ns) :: addToGroups rest n

/-- `_group_nodes_by_type_inputs(graph)`: the buckets, in key first-occurrence
order. -/
def groupNodesByTypeInputs (g : Graph) : List (List Node) :=
  (g.nodes.foldl addToGroups []).map Prod.snd

/-- The rewiring loop `for old_input, new_input in zip(...): graph.replace_all_inputs(...)`. -/
def zipReplaceAll (pairs : List (String × String)) (g : Graph) : Graph :=
  pairs.foldl (fun gc p => gc.replaceAllInputsAll p.1 p.2) g

/-- The deletion loop of `_merge_nodes_that_are_duplicated` over
`nodes_to_process[1:]`: a duplicate any of whose outputs is a declared graph
output is skipped; otherwise its consumers are rewired to the positionally
corresponding outputs of the retained node, the duplicate is removed, and the
dirty flag is raised. -/
def mergeDupsList (retain : Node) : List Node → Graph → Bool → Graph × Bool
  | [], g, flag => (g, flag)
  | del :: rest, g, flag =>
    if del.output.any (fun o => g.outputs.contains o) then
      mergeDupsList retain rest g flag
    else
      mergeDupsList retain rest
        ((zipReplaceAll (del.output.zip retain.output) g).removeNode del.name) true

/-- `_merge_nodes_that_are_duplicated(nodes_to_process, graph)`: stable
descending sort by `_len_of_node_output`, retain the head, fold the deletion
loop over the tail. -/
def mergeNodesThatAreDuplicated (ns : List Node) (g : Graph) (flag : Bool) : Graph × Bool :=
  match sortDescBy lenOfNodeOutput ns with
  | [] => (g, flag)
  | retain :: rest => mergeDupsList retain rest g flag

/-- The `while len(nodes_group) > 1` loop of `_del_nodes_if_duplicated`:
partition the group by exact attribute equality with the first element, merge
the equal class, continue on the remainder.  Fuel is the group length; each
round consumes at least the head, so the fuel never runs out when started at
the group length. -/
def delNodesIfDuplicatedFuel : Nat → List Node → Graph → Bool → Graph × Bool
  | 0, _, g, flag => (g, flag)
  | _ + 1, [], g, flag => (g, flag)
  | _ + 1, [_], g, flag => (g, flag)
  | fuel + 1, n0 :: n1 :: rest, g, flag =>
    delNodesIfDuplicatedFuel fuel ((n1 :: rest).filter (fun n => ¬ n.attr = n0.attr))
      (mergeNodesThatAreDuplicated (n0 :: (n1 :: rest).filter (fun n => n.attr = n0.attr)) g flag).1
      (mergeNodesThatAreDuplicated (n0 :: (n1 :: rest).filter (fun n => n.attr = n0.attr)) g flag).2

/-- `_del_nodes_if_duplicated(nodes_group, graph)`. -/
def delNodesIfDuplicated (grp : List Node) (g : Graph) (flag : Bool) : Graph × Bool :=
  delNodesIfDuplicatedFuel grp.length grp g flag

/-- The per-bucket loop of `_merge_duplicated_nodes`: skip identity / graph
input buckets, otherwise run the duplicate deletion on the bucket. -/
def mergeGroups : List (List Node) → Graph → Bool → Graph × Bool
  | [], g, flag => (g, flag)
  | [] :: rest, g, flag => mergeGroups rest g flag
  | (n0 :: tl) :: rest, g, flag =>
    if skipNodeType n0 then mergeGroups rest g flag
    else
      mergeGroups rest (delNodesIfDuplicated (n0 :: tl) g flag).1
        (delNodesIfDuplicated (n0 :: tl) g flag).2

/-- One full merge round, `_merge_duplicated_nodes(graph)`, threading the
instance dirty flag `_graph_can_be_optimized`. -/
def mergeDuplicatedNodes (g : Graph) (flag : Bool) : Graph × Bool :=
  mergeGroups (groupNodesByTypeInputs g) g flag

/-- The `while self._graph_can_be_optimized` loop body: reset the flag, run one
round, repeat while the round raised the flag.  The fuel case returns the
artificial flag `true`; `optimizeWhile_flag_false` below shows the fuel chosen
by `optimizeAtCurrentGraphLevel` never runs out, because every dirty round
strictly decreases the node count. -/
def optimizeWhile : Nat → Graph → Graph × Bool
  | 0, g => (g, true)
  | fuel + 1, g =>
    if (mergeDuplicatedNodes g false).2 then optimizeWhile fuel (mergeDuplicatedNodes g false).1
    else ((mergeDuplicatedNodes g false).1, false)

/-- `_optimize_at_current_graph_level(graph)` together with the per-instance
flag `_graph_can_be_optimized`: the returned Bool is the flag left on the
optimizer instance after the call. -/
def optimizeAtCurrentGraphLevel (flag : Bool) (g : Graph) : Graph × Bool :=
  if flag then optimizeWhile (g.nodes.length + 1) g else (g, flag)

/-!
### Basic facts about the graph primitives

`NodeSim a b` says `b` is `a` with possibly rewritten inputs: name, type,
outputs and attributes agree.  `Sim g g'` says `g'` is `g` with some input
rewiring applied: the declared outputs and the node skeletons agree
positionally.  All the input-rewiring primitives produce `Sim`-related graphs;
`remove_node` only filters the node list.
-/

def NodeSim (a b : Node) : Prop :=
  b.name = a.name ∧ b.type = a.type ∧ b.output = a.output ∧ b.attr = a.attr

def Sim (g g' : Graph) : Prop :=
  g'.outputs = g.outputs ∧ List.Forall₂ NodeSim g.nodes g'.nodes

theorem nodeSim_refl (a : Node) : NodeSim a a := ⟨rfl, rfl, rfl, rfl⟩

theorem nodeSim_trans {a b c : Node} (h1 : NodeSim a b) (h2 : NodeSim b c) : NodeSim a c := by
  obtain ⟨e1, e2, e3, e4⟩ := h1
  obtain ⟨f1, f2, f3, f4⟩ := h2
  exact ⟨f1.trans e1, f2.trans e2, f3.trans e3, f4.trans e4⟩

theorem sim_refl (g : Graph) : Sim g g := by
  refine ⟨rfl, ?_⟩
  exact List.forall₂_same.mpr (fun x _ => nodeSim_refl x)

theorem forall₂_nodeSim_trans : ∀ {l1 l2 l3 : List Node},
    List.Forall₂ NodeSim l1 l2 → List.Forall₂ NodeSim l2 l3 → List.Forall₂ NodeSim l1 l3 := by
  intro l1 l2 l3 h1 h2
  induction h1 generalizing l3 with
  | nil => cases h2; exact List.Forall₂.nil
  | cons hab _ ih =>
    cases h2 with
    | cons hbc h2t => exact List.Forall₂.cons (nodeSim_trans hab hbc) (ih h2t)

theorem sim_trans {g1 g2 g3 : Graph} (h1 : Sim g1 g2) (h2 : Sim g2 g3) : Sim g1 g3 := by
  refine ⟨h2.1.trans h1.1, ?_⟩
  exact forall₂_nodeSim_trans h1.2 h2.2

theorem sim_map_aux {l : List Node} {f : Node → Node} (hf : ∀ n, NodeSim n (f n)) :
    List.Forall₂ NodeSim l (l.map f) := by
  induction l with
  | nil => simp
  | cons a t ih => exact List.Forall₂.cons (hf a) ih

theorem replaceInput_nodeSim (old new : String) (n : Node) :
    NodeSim n (replaceInput old new n) := ⟨rfl, rfl, rfl, rfl⟩

theorem replaceAllInputsAll_sim (g : Graph) (old new : String) :
    Sim g (g.replaceAllInputsAll old new) := by
  refine ⟨rfl, ?_⟩
  exact sim_map_aux (replaceInput_nodeSim old new)

theorem replaceAllInputsIn_sim (g : Graph) (names : List String) (old new : String) :
    Sim g (g.replaceAllInputsIn names old new) := by
  refine ⟨rfl, ?_⟩
  refine sim_map_aux (fun n => ?_)
  split
  · exact replaceInput_nodeSim old new n
  · exact nodeSim_refl n

theorem zipReplaceAll_sim : ∀ (ps : List (String × String)) (g : Graph),
    Sim g (zipReplaceAll ps g)
  | [], g => sim_refl g
  | p :: ps, g =>
    sim_trans (replaceAllInputsAll_sim g p.1 p.2)
      (zipReplaceAll_sim ps (g.replaceAllInputsAll p.1 p.2))

theorem sim_length {g g' : Graph} (h : Sim g g') : g'.nodes.length = g.nodes.length :=
  (List.Forall₂.length_eq h.2).symm

theorem sim_outputs {g g' : Graph} (h : Sim g g') : g'.outputs = g.outputs := h.1

theorem forall₂_nodeSim_mem : ∀ {l1 l2 : List Node}, List.Forall₂ NodeSim l1 l2 →
    ∀ {m : Node}, m ∈ l1 → ∃ m' ∈ l2, NodeSim m m' := by
  intro l1 l2 h
  induction h with
  | nil => intro m hm; cases hm
  | @cons a b t1 t2 hab _ ih =>
    intro m hm
    cases hm with
    | head => exact ⟨b, List.mem_cons_self _ _, hab⟩
    | tail _ hm2 =>
      rcases ih hm2 with ⟨m', hm', hs⟩
      exact ⟨m', List.mem_cons_of_mem _ hm', hs⟩

theorem forall₂_nodeSim_mem_rev : ∀ {l1 l2 : List Node}, List.Forall₂ NodeSim l1 l2 →
    ∀ {m' : Node}, m' ∈ l2 → ∃ m ∈ l1, NodeSim m m' := by
  intro l1 l2 h
  induction h with
  | nil => intro m hm; cases hm
  | @cons a b t1 t2 hab _ ih =>
    intro m' hm
    cases hm with
    | head => exact ⟨a, List.mem_cons_self _ _, hab⟩
    | tail _ hm2 =>
      rcases ih hm2 with ⟨m, hmm, hs⟩
      exact ⟨m, List.mem_cons_of_mem _ hmm, hs⟩

/-- A node with a given name survives any input rewiring, with its skeleton
fields intact. -/
theorem sim_mem {g g' : Graph} (h : Sim g g') {m : Node} (hm : m ∈ g.nodes) :
    ∃ m' ∈ g'.nodes, NodeSim m m' :=
  forall₂_nodeSim_mem h.2 hm

/-- Every node of a rewired graph has the skeleton of a node of the original
graph (provenance). -/
theorem sim_mem_rev {g g' : Graph} (h : Sim g g') {m' : Node} (hm : m' ∈ g'.nodes) :
    ∃ m ∈ g.nodes, NodeSim m m' :=
  forall₂_nodeSim_mem_rev h.2 hm

def HasName (g : Graph) (nm : String) : Prop := ∃ m ∈ g.nodes, m.name = nm

theorem sim_hasName {g g' : Graph} (h : Sim g g') {nm : String} (hn : HasName g nm) :
    HasName g' nm := by
  obtain ⟨m, hm, he⟩ := hn
  obtain ⟨m', hm', hs⟩ := sim_mem h hm
  exact ⟨m', hm', hs.1.trans he⟩

theorem removeNode_outputs (g : Graph) (nm : String) : (g.removeNode nm).outputs = g.outputs := rfl

theorem removeNode_length_le (g : Graph) (nm : String) :
    (g.removeNode nm).nodes.length ≤ g.nodes.length :=
  List.length_filter_le _ _

theorem removeNode_length_lt {g : Graph} {nm : String} (h : HasName g nm) :
    (g.removeNode nm).nodes.length < g.nodes.length := by
  obtain ⟨m, hm, he⟩ := h
  refine List.length_filter_lt_length_iff_exists.mpr ⟨m, hm, ?_⟩
  simp [he]

/-!
### The dirty flag is monotone, and a clean round leaves the graph unchanged
-/

theorem mergeDupsList_flag_mono (retain : Node) :
    ∀ (l : List Node) (g : Graph), (mergeDupsList retain l g true).2 = true
  | [], _ => rfl
  | del :: rest, g => by
    unfold mergeDupsList
    split
    · exact mergeDupsList_flag_mono retain rest g
    · exact mergeDupsList_flag_mono retain rest _

theorem mergeNodes_flag_mono (ns : List Node) (g : Graph) :
    (mergeNodesThatAreDuplicated ns g true).2 = true := by
  unfold mergeNodesThatAreDuplicated
  split
  · rfl
  · exact mergeDupsList_flag_mono _ _ _

theorem delNodesFuel_flag_mono : ∀ (fuel : Nat) (l : List Node) (g : Graph),
    (delNodesIfDuplicatedFuel fuel l g true).2 = true
  | 0, _, _ => rfl
  | _ + 1, [], _ => rfl
  | _ + 1, [_], _ => rfl
  | fuel + 1, n0 :: n1 :: rest, g => by
    unfold delNodesIfDuplicatedFuel
    rw [mergeNodes_flag_mono]
    exact delNodesFuel_flag_mono fuel _ _

theorem delNodes_flag_mono (grp : List Node) (g : Graph) :
    (delNodesIfDuplicated grp g true).2 = true :=
  delNodesFuel_flag_mono _ _ _

theorem mergeGroups_flag_mono : ∀ (gs : List (List Node)) (g : Graph),
    (mergeGroups gs g true).2 = true
  | [], _ => rfl
  | [] :: rest, g => by
    unfold mergeGroups; exact mergeGroups_flag_mono rest g
  | (n0 :: tl) :: rest, g => by
    unfold mergeGroups
    split
    · exact mergeGroups_flag_mono rest g
    · rw [delNodes_flag_mono]
      exact mergeGroups_flag_mono rest _

theorem mergeDupsList_false {retain : Node} :
    ∀ {l : List Node} {g : Graph} {flag : Bool},
      (mergeDupsList retain l g flag).2 = false → flag = false ∧ (mergeDupsList retain l g flag).1 = g
  | [], g, flag, h => ⟨h, rfl⟩
  | del :: rest, g, flag, h => by
    unfold mergeDupsList at h ⊢
    split at h
    · rename_i hc
      simp only [hc, if_true]
      exact mergeDupsList_false h
    · rename_i hc
      exfalso
      rw [mergeDupsList_flag_mono] at h
      exact Bool.noConfusion h

theorem mergeNodes_false {ns : List Node} {g : Graph} {flag : Bool}
    (h : (mergeNodesThatAreDuplicated ns g flag).2 = false) :
    flag = false ∧ (mergeNodesThatAreDuplicated ns g flag).1 = g := by
  unfold mergeNodesThatAreDuplicated at h ⊢
  split at h
  · exact ⟨h, rfl⟩
  · exact mergeDupsList_false h

theorem delNodesFuel_false : ∀ {fuel : Nat} {l : List Node} {g : Graph} {flag : Bool},
    (delNodesIfDuplicatedFuel fuel l g flag).2 = false →
      flag = false ∧ (delNodesIfDuplicatedFuel fuel l g flag).1 = g
  | 0, _, g, flag, h => ⟨h, rfl⟩
  | _ + 1, [], g, flag, h => ⟨h, rfl⟩
  | _ + 1, [_], g, flag, h => ⟨h, rfl⟩
  | fuel + 1, n0 :: n1 :: rest, g, flag, h => by
    unfold delNodesIfDuplicatedFuel at h ⊢
    have h2 := delNodesFuel_false h
    have h3 := mergeNodes_false h2.1
    exact ⟨h3.1, by rw [h2.2, h3.2]⟩

theorem delNodes_false {grp : List Node} {g : Graph} {flag : Bool}
    (h : (delNodesIfDuplicated grp g flag).2 = false) :
    flag = false ∧ (delNodesIfDuplicated grp g flag).1 = g :=
  delNodesFuel_false h

theorem mergeGroups_false : ∀ {gs : List (List Node)} {g : Graph} {flag : Bool},
    (mergeGroups gs g flag).2 = false → flag = false ∧ (mergeGroups gs g flag).1 = g
  | [], g, flag, h => ⟨h, rfl⟩
  | [] :: rest, g, flag, h => by
    unfold mergeGroups at h ⊢; exact mergeGroups_false h
  | (n0 :: tl) :: rest, g, flag, h => by
    unfold mergeGroups at h ⊢
    split at h
    · rename_i hc
      rw [if_pos hc]
      exact mergeGroups_false h
    · rename_i hc
      rw [if_neg hc]
      have h2 := mergeGroups_false h
      have h4 := delNodes_false h2.1
      exact ⟨h4.1, by rw [h2.2]; exact h4.2⟩

/-- A round that reports no merge did not touch the graph. -/
theorem mergeDuplicatedNodes_false {g : Graph} {flag : Bool}
    (h : (mergeDuplicatedNodes g flag).2 = false) :
    flag = false ∧ (mergeDuplicatedNodes g flag).1 = g := by
  unfold mergeDuplicatedNodes at h ⊢
  exact mergeGroups_false h

/-!
### Node count never increases, and a dirty round strictly decreases it

The flag is raised only together with a `remove_node` of a node that is
present in the graph at that moment, so a round that reports a merge has
deleted at least one node.  This bounds the number of dirty rounds by the
node count and justifies the fuel of `optimizeAtCurrentGraphLevel`.
-/

theorem zipReplaceAll_length (ps : List (String × String)) (g : Graph) :
    (zipReplaceAll ps g).nodes.length = g.nodes.length :=
  sim_length (zipReplaceAll_sim ps g)

theorem zipReplaceAll_outputs (ps : List (String × String)) (g : Graph) :
    (zipReplaceAll ps g).outputs = g.outputs :=
  sim_outputs (zipReplaceAll_sim ps g)

theorem mergeDupsList_length_le (retain : Node) :
    ∀ (l : List Node) (g : Graph) (flag : Bool),
      (mergeDupsList retain l g flag).1.nodes.length ≤ g.nodes.length
  | [], _, _ => le_refl _
  | del :: rest, g, flag => by
    unfold mergeDupsList
    split
    · exact mergeDupsList_length_le retain rest g flag
    · refine le_trans (mergeDupsList_length_le retain rest _ true) ?_
      refine le_trans (removeNode_length_le _ _) ?_
      exact le_of_eq (zipReplaceAll_length _ _)

theorem mergeNodes_length_le (ns : List Node) (g : Graph) (flag : Bool) :
    (mergeNodesThatAreDuplicated ns g flag).1.nodes.length ≤ g.nodes.length := by
  unfold mergeNodesThatAreDuplicated
  split
  · exact le_refl _
  · exact mergeDupsList_length_le _ _ _ _

theorem delNodesFuel_length_le : ∀ (fuel : Nat) (l : List Node) (g : Graph) (flag : Bool),
    (delNodesIfDuplicatedFuel fuel l g flag).1.nodes.length ≤ g.nodes.length
  | 0, _, _, _ => le_refl _
  | _ + 1, [], _, _ => le_refl _
  | _ + 1, [_], _, _ => le_refl _
  | fuel + 1, n0 :: n1 :: rest, g, flag => by
    unfold delNodesIfDuplicatedFuel
    exact le_trans (delNodesFuel_length_le fuel _ _ _) (mergeNodes_length_le _ _ _)

theorem delNodes_length_le (grp : List Node) (g : Graph) (flag : Bool) :
    (delNodesIfDuplicated grp g flag).1.nodes.length ≤ g.nodes.length :=
  delNodesFuel_length_le _ _ _ _

theorem mergeGroups_length_le : ∀ (gs : List (List Node)) (g : Graph) (flag : Bool),
    (mergeGroups gs g flag).1.nodes.length ≤ g.nodes.length
  | [], _, _ => le_refl _
  | [] :: rest, g, flag => by
    unfold mergeGroups; exact mergeGroups_length_le rest g flag
  | (n0 :: tl) :: rest, g, flag => by
    unfold mergeGroups
    split
    · exact mergeGroups_length_le rest g flag
    · exact le_trans (mergeGroups_length_le rest _ _) (delNodes_length_le _ _ _)

theorem mem_insertDescBy {k : Node → Nat} {n : Node} :
    ∀ {l : List Node} {x : Node}, x ∈ insertDescBy k n l → x = n ∨ x ∈ l
  | [], x, h => Or.inl (List.mem_singleton.mp h)
  | m :: rest, x, h => by
    unfold insertDescBy at h
    split at h
    · rcases List.mem_cons.mp h with he | h2
      · exact Or.inr (by rw [he]; exact List.mem_cons_self _ _)
      · rcases mem_insertDescBy h2 with h1 | h1
        · exact Or.inl h1
        · exact Or.inr (List.mem_cons_of_mem _ h1)
    · rcases List.mem_cons.mp h with he | h2
      · exact Or.inl he
      · exact Or.inr h2

theorem mem_foldl_insertDescBy {k : Node → Nat} :
    ∀ (l : List Node) (acc : List Node) (x : Node),
      x ∈ l.foldl (fun acc n => insertDescBy k n acc) acc → x ∈ acc ∨ x ∈ l
  | [], _, _, h => Or.inl h
  | n :: rest, acc, x, h => by
    rcases mem_foldl_insertDescBy rest (insertDescBy k n acc) x h with h1 | h1
    · rcases mem_insertDescBy h1 with h2 | h2
      · exact Or.inr (by rw [h2]; exact List.mem_cons_self _ _)
      · exact Or.inl h2
    · exact Or.inr (List.mem_cons_of_mem _ h1)

theorem mem_sortDescBy {k : Node → Nat} {l : List Node} {x : Node}
    (h : x ∈ sortDescBy k l) : x ∈ l := by
  rcases mem_foldl_insertDescBy l [] x h with h1 | h1
  · cases h1
  · exact h1

theorem mergeDupsList_lt (retain : Node) :
    ∀ (l : List Node) (g : Graph),
      (∀ d ∈ l, HasName g d.name) →
      (mergeDupsList retain l g false).2 = true →
      (mergeDupsList retain l g false).1.nodes.length < g.nodes.length
  | [], _, _, h => by cases h
  | del :: rest, g, H, h => by
    unfold mergeDupsList at h ⊢
    split at h
    · rename_i hc
      rw [if_pos hc]
      exact mergeDupsList_lt retain rest g (fun d hd => H d (List.mem_cons_of_mem _ hd)) h
    · rename_i hc
      rw [if_neg hc]
      have hname : HasName (zipReplaceAll (del.output.zip retain.output) g) del.name :=
        sim_hasName (zipReplaceAll_sim _ g) (H del (List.mem_cons_self _ _))
      refine lt_of_le_of_lt (mergeDupsList_length_le retain rest _ true) ?_
      refine lt_of_lt_of_le (removeNode_length_lt hname) ?_
      exact le_of_eq (zipReplaceAll_length _ _)

theorem mergeNodes_lt {ns : List Node} {g : Graph}
    (H : ∀ d ∈ ns, HasName g d.name)
    (h : (mergeNodesThatAreDuplicated ns g false).2 = true) :
    (mergeNodesThatAreDuplicated ns g false).1.nodes.length < g.nodes.length := by
  unfold mergeNodesThatAreDuplicated at h ⊢
  split at h
  · cases h
  · rename_i retain rest heq
    refine mergeDupsList_lt retain rest g (fun d hd => ?_) h
    refine H d (mem_sortDescBy (k := lenOfNodeOutput) (l := ns) ?_)
    rw [heq]
    exact List.mem_cons_of_mem _ hd

theorem delNodesFuel_lt : ∀ {fuel : Nat} {l : List Node} {g : Graph},
    (∀ d ∈ l, HasName g d.name) →
    (delNodesIfDuplicatedFuel fuel l g false).2 = true →
    (delNodesIfDuplicatedFuel fuel l g false).1.nodes.length < g.nodes.length
  | 0, _, _, _, h => by cases h
  | _ + 1, [], _, _, h => by cases h
  | _ + 1, [_], _, _, h => by cases h
  | fuel + 1, n0 :: n1 :: rest, g, H, h => by
    have Htp : ∀ d ∈ n0 :: (n1 :: rest).filter (fun n => n.attr = n0.attr), HasName g d.name := by
      intro d hd
      rcases List.mem_cons.mp hd with he | hd2
      · rw [he]; exact H n0 (List.mem_cons_self _ _)
      · exact H d (List.mem_cons_of_mem _ (List.mem_of_mem_filter hd2))
    unfold delNodesIfDuplicatedFuel at h ⊢
    cases hR : (mergeNodesThatAreDuplicated
        (n0 :: (n1 :: rest).filter (fun n => n.attr = n0.attr)) g false).2 with
    | true =>
      have hlt := mergeNodes_lt Htp hR
      exact lt_of_le_of_lt (delNodesFuel_length_le fuel _ _ _) hlt
    | false =>
      have hf := mergeNodes_false hR
      rw [hR, hf.2] at h
      rw [hf.2]
      refine delNodesFuel_lt (fun d hd => ?_) h
      exact H d (List.mem_cons_of_mem _ (List.mem_of_mem_filter hd))

theorem delNodes_lt {grp : List Node} {g : Graph}
    (H : ∀ d ∈ grp, HasName g d.name)
    (h : (delNodesIfDuplicated grp g false).2 = true) :
    (delNodesIfDuplicated grp g false).1.nodes.length < g.nodes.length :=
  delNodesFuel_lt H h

theorem mergeGroups_lt : ∀ {gs : List (List Node)} {g : Graph},
    (∀ grp ∈ gs, ∀ d ∈ grp, HasName g d.name) →
    (mergeGroups gs g false).2 = true →
    (mergeGroups gs g false).1.nodes.length < g.nodes.length
  | [], _, _, h => by cases h
  | [] :: rest, g, H, h => by
    unfold mergeGroups at h ⊢
    exact mergeGroups_lt (fun grp hg => H grp (List.mem_cons_of_mem _ hg)) h
  | (n0 :: tl) :: rest, g, H, h => by
    unfold mergeGroups at h ⊢
    split at h
    · rename_i hc
      rw [if_pos hc]
      exact mergeGroups_lt (fun grp hg => H grp (List.mem_cons_of_mem _ hg)) h
    · rename_i hc
      rw [if_neg hc]
      cases hR : (delNodesIfDuplicated (n0 :: tl) g false).2 with
      | true =>
        have hlt := delNodes_lt (H (n0 :: tl) (List.mem_cons_self _ _)) hR
        exact lt_of_le_of_lt (mergeGroups_length_le rest _ _) hlt
      | false =>
        have hf := delNodes_false hR
        rw [hR, hf.2] at h
        rw [hf.2]
        exact mergeGroups_lt (fun grp hg => H grp (List.mem_cons_of_mem _ hg)) h

theorem mem_addToGroups_snd :
    ∀ (acc : List ((String × List String) × List Node)) (n : Node)
      (p : (String × List String) × List Node) (x : Node),
      p ∈ addToGroups acc n → x ∈ p.2 → (∃ q ∈ acc, x ∈ q.2) ∨ x = n
  | [], n, p, x, hp, hx => by
    unfold addToGroups at hp
    have hpe := List.mem_singleton.mp hp
    rw [hpe] at hx
    exact Or.inr (List.mem_singleton.mp hx)
  | (key, ns) :: rest, n, p, x, hp, hx => by
    unfold addToGroups at hp
    split at hp
    · rcases List.mem_cons.mp hp with hpe | hp2
      · rw [hpe] at hx
        rcases List.mem_append.mp hx with h1 | h1
        · exact Or.inl ⟨(key, ns), List.mem_cons_self _ _, h1⟩
        · exact Or.inr (List.mem_singleton.mp h1)
      · exact Or.inl ⟨p, List.mem_cons_of_mem _ hp2, hx⟩
    · rcases List.mem_cons.mp hp with hpe | hp2
      · rw [hpe] at hx
        exact Or.inl ⟨(key, ns), List.mem_cons_self _ _, hx⟩
      · rcases mem_addToGroups_snd rest n p x hp2 hx with ⟨q, hq, hxq⟩ | h1
        · exact Or.inl ⟨q, List.mem_cons_of_mem _ hq, hxq⟩
        · exact Or.inr h1

theorem mem_foldl_addToGroups :
    ∀ (l : List Node) (acc : List ((String × List String) × List Node))
      (p : (String × List String) × List Node) (x : Node),
      p ∈ l.foldl addToGroups acc → x ∈ p.2 → (∃ q ∈ acc, x ∈ q.2) ∨ x ∈ l
  | [], acc, p, x, hp, hx => Or.inl ⟨p, hp, hx⟩
  | n :: rest, acc, p, x, hp, hx => by
    rcases mem_foldl_addToGroups rest (addToGroups acc n) p x hp hx with ⟨q, hq, hxq⟩ | h1
    · rcases mem_addToGroups_snd acc n q x hq hxq with ⟨q2, hq2, hxq2⟩ | h2
      · exact Or.inl ⟨q2, hq2, hxq2⟩
      · exact Or.inr (by rw [h2]; exact List.mem_cons_self _ _)
    · exact Or.inr (List.mem_cons_of_mem _ h1)

/-- Every node of every bucket of `_group_nodes_by_type_inputs` is a node of
the graph. -/
theorem groupNodes_sub {g : Graph} {grp : List Node} {n : Node}
    (hg : grp ∈ groupNodesByTypeInputs g) (hn : n ∈ grp) : n ∈ g.nodes := by
  unfold groupNodesByTypeInputs at hg
  rcases List.mem_map.mp hg with ⟨p, hp, hpe⟩
  rcases mem_foldl_addToGroups g.nodes [] p n hp (hpe ▸ hn) with ⟨q, hq, _⟩ | h1
  · cases hq
  · exact h1

/-- A merge round that raises the dirty flag strictly decreases the node
count. -/
theorem mergeDuplicatedNodes_lt {g : Graph}
    (h : (mergeDuplicatedNodes g false).2 = true) :
    (mergeDuplicatedNodes g false).1.nodes.length < g.nodes.length := by
  unfold mergeDuplicatedNodes at h ⊢
  refine mergeGroups_lt (fun grp hg d hd => ⟨d, groupNodes_sub hg hd, rfl⟩) h

/-- The fuel `g.nodes.length + 1` used by `optimizeAtCurrentGraphLevel` never
runs out: the loop exits with the instance flag left `false`, exactly as the
Python `while` loop does. -/
theorem optimizeWhile_flag_false : ∀ (fuel : Nat) (g : Graph), g.nodes.length < fuel →
    (optimizeWhile fuel g).2 = false
  | 0, _, h => absurd h (Nat.not_lt_zero _)
  | fuel + 1, g, h => by
    unfold optimizeWhile
    split
    · rename_i hc
      exact optimizeWhile_flag_false fuel _
        (lt_of_lt_of_le (mergeDuplicatedNodes_lt hc) (Nat.lt_succ_iff.mp h))
    · rfl

/-- When the loop exits, the final graph is a fixed point of a merge round:
the last round neither changed the graph nor raised the flag. -/
theorem optimizeWhile_clean : ∀ {fuel : Nat} {g g' : Graph},
    optimizeWhile fuel g = (g', false) → mergeDuplicatedNodes g' false = (g', false)
  | 0, g, g', h => by
    injection h with h1 h2
    exact Bool.noConfusion h2
  | fuel + 1, g, g', h => by
    unfold optimizeWhile at h
    split at h
    · exact optimizeWhile_clean h
    · rename_i hc
      have hc' : (mergeDuplicatedNodes g false).2 = false := by
        revert hc; cases (mergeDuplicatedNodes g false).2 <;> simp
      have hg := mergeDuplicatedNodes_false hc'
      injection h with h1 h2
      rw [← h1, hg.2]
      exact Prod.ext hg.2 hc'

/-!
### The declared output list is never modified
-/

theorem mergeDupsList_outputs (retain : Node) :
    ∀ (l : List Node) (g : Graph) (flag : Bool),
      (mergeDupsList retain l g flag).1.outputs = g.outputs
  | [], _, _ => rfl
  | del :: rest, g, flag => by
    unfold mergeDupsList
    split
    · exact mergeDupsList_outputs retain rest g flag
    · rw [mergeDupsList_outputs retain rest _ true]
      rw [removeNode_outputs, zipReplaceAll_outputs]

theorem mergeNodes_outputs (ns : List Node) (g : Graph) (flag : Bool) :
    (mergeNodesThatAreDuplicated ns g flag).1.outputs = g.outputs := by
  unfold mergeNodesThatAreDuplicated
  split
  · rfl
  · exact mergeDupsList_outputs _ _ _ _

theorem delNodesFuel_outputs : ∀ (fuel : Nat) (l : List Node) (g : Graph) (flag : Bool),
    (delNodesIfDuplicatedFuel fuel l g flag).1.outputs = g.outputs
  | 0, _, _, _ => rfl
  | _ + 1, [], _, _ => rfl
  | _ + 1, [_], _, _ => rfl
  | fuel + 1, n0 :: n1 :: rest, g, flag => by
    unfold delNodesIfDuplicatedFuel
    rw [delNodesFuel_outputs fuel _ _ _, mergeNodes_outputs]

theorem delNodes_outputs (grp : List Node) (g : Graph) (flag : Bool) :
    (delNodesIfDuplicated grp g flag).1.outputs = g.outputs :=
  delNodesFuel_outputs _ _ _ _

theorem mergeGroups_outputs : ∀ (gs : List (List Node)) (g : Graph) (flag : Bool),
    (mergeGroups gs g flag).1.outputs = g.outputs
  | [], _, _ => rfl
  | [] :: rest, g, flag => by
    unfold mergeGroups; exact mergeGroups_outputs rest g flag
  | (n0 :: tl) :: rest, g, flag => by
    unfold mergeGroups
    split
    · exact mergeGroups_outputs rest g flag
    · rw [mergeGroups_outputs rest _ _]
      exact delNodes_outputs _ _ _

theorem mergeDuplicatedNodes_outputs (g : Graph) (flag : Bool) :
    (mergeDuplicatedNodes g flag).1.outputs = g.outputs :=
  mergeGroups_outputs _ _ _

/-!
### A node producing a declared graph output is never deleted

`GraphOutputKept nm O t g` packages: the graph contains a node with name
`nm`, output list `O` and type `t`, and every node named `nm` has output list
`O` (true in particular when node names are unique, as they are in tf2onnx
graphs).  The deletion branch of `_merge_nodes_that_are_duplicated` is guarded
by `set(node_to_delete.output).intersection(set(graph.outputs))`, so a node
whose output list meets the declared outputs can never be the deleted one.
-/

def GraphOutputKept (nm : String) (O : List String) (t : String) (g : Graph) : Prop :=
  (∃ m ∈ g.nodes, m.name = nm ∧ m.output = O ∧ m.type = t) ∧
  (∀ m ∈ g.nodes, m.name = nm → m.output = O)

theorem kept_of_sim {nm : String} {O : List String} {t : String} {g g' : Graph}
    (hs : Sim g g') (h : GraphOutputKept nm O t g) : GraphOutputKept nm O t g' := by
  constructor
  · obtain ⟨m, hm, h1, h2, h3⟩ := h.1
    obtain ⟨m', hm', hsim⟩ := sim_mem hs hm
    exact ⟨m', hm', hsim.1.trans h1, hsim.2.2.1.trans h2, hsim.2.1.trans h3⟩
  · intro m' hm' hname
    obtain ⟨m, hm, hsim⟩ := sim_mem_rev hs hm'
    rw [hsim.2.2.1]
    exact h.2 m hm (hsim.1.symm.trans hname)

theorem kept_removeNode {nm : String} {O : List String} {t : String} {g : Graph} {dn : String}
    (hne : ¬ dn = nm) (h : GraphOutputKept nm O t g) :
    GraphOutputKept nm O t (g.removeNode dn) := by
  constructor
  · obtain ⟨m, hm, h1, h2, h3⟩ := h.1
    refine ⟨m, ?_, h1, h2, h3⟩
    refine List.mem_filter.mpr ⟨hm, ?_⟩
    simp only [decide_eq_true_eq]
    rw [h1]
    exact fun hc => hne hc.symm
  · intro m hm hname
    exact h.2 m (List.mem_of_mem_filter hm) hname

theorem mergeDupsList_kept (retain : Node) {nm : String} {O : List String} {t : String} :
    ∀ (l : List Node) (g : Graph) (flag : Bool),
      (∀ d ∈ l, d.name = nm → d.output = O) →
      (∃ o ∈ O, o ∈ g.outputs) →
      GraphOutputKept nm O t g →
      GraphOutputKept nm O t (mergeDupsList retain l g flag).1
  | [], _, _, _, _, hk => hk
  | del :: rest, g, flag, Hd, HO, hk => by
    unfold mergeDupsList
    split
    · exact mergeDupsList_kept retain rest g flag
        (fun d hd => Hd d (List.mem_cons_of_mem _ hd)) HO hk
    · rename_i hc
      have hne : ¬ del.name = nm := by
        intro he
        have hOdel : del.output = O := Hd del (List.mem_cons_self _ _) he
        obtain ⟨o, hoO, hog⟩ := HO
        apply hc
        refine List.any_eq_true.mpr ⟨o, ?_, ?_⟩
        · rw [hOdel]; exact hoO
        · exact List.elem_iff.mpr hog
      have hk2 : GraphOutputKept nm O t
          ((zipReplaceAll (del.output.zip retain.output) g).removeNode del.name) :=
        kept_removeNode hne (kept_of_sim (zipReplaceAll_sim _ g) hk)
      refine mergeDupsList_kept retain rest _ true
        (fun d hd => Hd d (List.mem_cons_of_mem _ hd)) ?_ hk2
      rw [removeNode_outputs, zipReplaceAll_outputs]
      exact HO

theorem mergeNodes_kept {nm : String} {O : List String} {t : String}
    (ns : List Node) (g : Graph) (flag : Bool)
    (Hd : ∀ d ∈ ns, d.name = nm → d.output = O)
    (HO : ∃ o ∈ O, o ∈ g.outputs)
    (hk : GraphOutputKept nm O t g) :
    GraphOutputKept nm O t (mergeNodesThatAreDuplicated ns g flag).1 := by
  unfold mergeNodesThatAreDuplicated
  split
  · exact hk
  · rename_i retain rest heq
    refine mergeDupsList_kept retain rest g flag (fun d hd => ?_) HO hk
    refine Hd d (mem_sortDescBy (k := lenOfNodeOutput) (l := ns) ?_)
    rw [heq]
    exact List.mem_cons_of_mem _ hd

theorem delNodesFuel_kept {nm : String} {O : List String} {t : String} :
    ∀ (fuel : Nat) (l : List Node) (g : Graph) (flag : Bool),
      (∀ d ∈ l, d.name = nm → d.output = O) →
      (∃ o ∈ O, o ∈ g.outputs) →
      GraphOutputKept nm O t g →
      GraphOutputKept nm O t (delNodesIfDuplicatedFuel fuel l g flag).1
  | 0, _, _, _, _, _, hk => hk
  | _ + 1, [], _, _, _, _, hk => hk
  | _ + 1, [_], _, _, _, _, hk => hk
  | fuel + 1, n0 :: n1 :: rest, g, flag, Hd, HO, hk => by
    have Htp : ∀ d ∈ n0 :: (n1 :: rest).filter (fun n => n.attr = n0.attr),
        d.name = nm → d.output = O := by
      intro d hd
      rcases List.mem_cons.mp hd with he | hd2
      · rw [he]; exact Hd n0 (List.mem_cons_self _ _)
      · exact Hd d (List.mem_cons_of_mem _ (List.mem_of_mem_filter hd2))
    unfold delNodesIfDuplicatedFuel
    refine delNodesFuel_kept fuel _ _ _ (fun d hd => ?_) ?_
      (mergeNodes_kept _ _ _ Htp HO hk)
    · exact Hd d (List.mem_cons_of_mem _ (List.mem_of_mem_filter hd))
    · rw [mergeNodes_outputs]
      exact HO

theorem mergeGroups_kept {nm : String} {O : List String} {t : String} :
    ∀ (gs : List (List Node)) (g : Graph) (flag : Bool),
      (∀ grp ∈ gs, ∀ d ∈ grp, d.name = nm → d.output = O) →
      (∃ o ∈ O, o ∈ g.outputs) →
      GraphOutputKept nm O t g →
      GraphOutputKept nm O t (mergeGroups gs g flag).1
  | [], _, _, _, _, hk => hk
  | [] :: rest, g, flag, H, HO, hk => by
    unfold mergeGroups
    exact mergeGroups_kept rest g flag (fun grp hg => H grp (List.mem_cons_of_mem _ hg)) HO hk
  | (n0 :: tl) :: rest, g, flag, H, HO, hk => by
    unfold mergeGroups
    split
    · exact mergeGroups_kept rest g flag (fun grp hg => H grp (List.mem_cons_of_mem _ hg)) HO hk
    · refine mergeGroups_kept rest _ _
        (fun grp hg => H grp (List.mem_cons_of_mem _ hg)) ?_
        (delNodesFuel_kept _ _ _ _ (H (n0 :: tl) (List.mem_cons_self _ _)) HO hk)
      rw [delNodes_outputs]
      exact HO

theorem mergeDuplicatedNodes_kept {nm : String} {O : List String} {t : String}
    (g : Graph) (flag : Bool)
    (HO : ∃ o ∈ O, o ∈ g.outputs)
    (hk : GraphOutputKept nm O t g) :
    GraphOutputKept nm O t (mergeDuplicatedNodes g flag).1 := by
  unfold mergeDuplicatedNodes
  refine mergeGroups_kept _ g flag (fun grp hg d hd hdn => ?_) HO hk
  exact hk.2 d (groupNodes_sub hg hd) hdn

theorem optimizeWhile_kept {nm : String} {O : List String} {t : String} :
    ∀ (fuel : Nat) (g : Graph),
      (∃ o ∈ O, o ∈ g.outputs) →
      GraphOutputKept nm O t g →
      GraphOutputKept nm O t (optimizeWhile fuel g).1
  | 0, _, _, hk => hk
  | fuel + 1, g, HO, hk => by
    unfold optimizeWhile
    split
    · refine optimizeWhile_kept fuel _ ?_ (mergeDuplicatedNodes_kept g false HO hk)
      rw [mergeDuplicatedNodes_outputs]
      exact HO
    · exact mergeDuplicatedNodes_kept g false HO hk

/-!
## Claims about the duplicate-node merge optimizer

Concrete scenario graphs.  `C1G` is the spec's three-`Abs` scenario: the three
duplicates `a`, `b`, `c` share the single input `t0`, carry no attributes and
are not graph outputs; their outputs have 1, 2 and 0 consumers respectively.
-/

def C1src : Node := { name := "src", type := "Src", input := [], output := ["t0"] }
def C1a : Node := { name := "a", type := "Abs", input := ["t0"], output := ["a0"] }
def C1b : Node := { name := "b", type := "Abs", input := ["t0"], output := ["b0"] }
def C1c : Node := { name := "c", type := "Abs", input := ["t0"], output := ["c0"] }
def C1ca : Node := { name := "ca", type := "Ca", input := ["a0"], output := ["ca0"] }
def C1cb1 : Node := { name := "cb1", type := "Cb1", input := ["b0"], output := ["cb10"] }
def C1cb2 : Node := { name := "cb2", type := "Cb2", input := ["b0"], output := ["cb20"] }

def C1G : Graph :=
  { nodes := [C1src, C1a, C1b, C1c, C1ca, C1cb1, C1cb2], outputs := [] }

/-- C1, counterexample: in the spec's own scenario the retained `Abs` node is
NOT the one whose output originally had 2 consumers. The sort key
`_len_of_node_output` is the length of the declared output list (1 for all
three nodes), so the stable sort keeps the group order and the first `Abs`
node (`a`, with 1 consumer) is retained, while `b` (2 consumers) is deleted. -/
theorem c1_counterexample :
    (((optimizeAtCurrentGraphLevel true C1G).1.nodes.filter
        (fun n => n.type = "Abs")).map Node.name) = ["a"] ∧
    ¬ (((optimizeAtCurrentGraphLevel true C1G).1.nodes.filter
        (fun n => n.type = "Abs")).map Node.name) = ["b"] := by
  constructor
  · decide
  · decide

/-- C1, amended: within an equality class the retained node is the first, in
bucket order, among those with the longest declared output list (the sort is
by `len(node.output)` and is stable, so ties keep original order).  In the
three-`Abs` scenario all output lists have length 1, hence exactly one `Abs`
node remains — the first one, `a` — and all three (not five) original
consumers read its output. -/
theorem c1_amended :
    (((optimizeAtCurrentGraphLevel true C1G).1.nodes.filter
        (fun n => n.type = "Abs")).map Node.name) = ["a"] ∧
    ((optimizeAtCurrentGraphLevel true C1G).1.nodes.find? (fun n => n.name = "ca")).map
        Node.input = some ["a0"] ∧
    ((optimizeAtCurrentGraphLevel true C1G).1.nodes.find? (fun n => n.name = "cb1")).map
        Node.input = some ["a0"] ∧
    ((optimizeAtCurrentGraphLevel true C1G).1.nodes.find? (fun n => n.name = "cb2")).map
        Node.input = some ["a0"] := by
  refine ⟨by decide, by decide, by decide, by decide⟩

/-- C5: a node any of whose outputs is a declared graph output is never
deleted by the merge optimizer, however many exact duplicates it has.  The
uniformity hypothesis (`every node sharing its name has the same output
list`) is the name-uniqueness invariant of tf2onnx graphs, under which
`remove_node(name)` cannot remove an unrelated protected node. -/
theorem c5_graph_output_never_deleted (g : Graph) (n : Node)
    (hmem : n ∈ g.nodes)
    (hout : ∃ o ∈ n.output, o ∈ g.outputs)
    (huniq : ∀ m ∈ g.nodes, m.name = n.name → m.output = n.output) :
    ∃ m ∈ (optimizeAtCurrentGraphLevel true g).1.nodes,
      m.name = n.name ∧ m.output = n.output ∧ m.type = n.type := by
  have hk : GraphOutputKept n.name n.output n.type g := ⟨⟨n, hmem, rfl, rfl, rfl⟩, huniq⟩
  have h2 := optimizeWhile_kept (g.nodes.length + 1) g hout hk
  exact h2.1

def C5src : Node := { name := "src", type := "Src", input := [], output := ["t0"] }
def C5a : Node := { name := "a", type := "Abs", input := ["t0"], output := ["a0"] }
def C5b : Node := { name := "b", type := "Abs", input := ["t0"], output := ["b0"] }

/-- `b` is an exact duplicate of `a` but its output is a declared graph
output. -/
def C5G : Graph := { nodes := [C5src, C5a, C5b], outputs := ["b0"] }

theorem c5_witness :
    ∃ m ∈ (optimizeAtCurrentGraphLevel true C5G).1.nodes,
      m.name = C5b.name ∧ m.output = C5b.output ∧ m.type = C5b.type := by
  refine c5_graph_output_never_deleted C5G C5b (by decide) ⟨"b0", by decide, by decide⟩ ?_
  decide

/-- A graph that a merge round leaves untouched is a fixed point of the whole
while loop. -/
theorem optimizeWhile_fixed {g : Graph} (h : mergeDuplicatedNodes g false = (g, false)) :
    ∀ fuel : Nat, optimizeWhile (fuel + 1) g = (g, false) := by
  intro fuel
  unfold optimizeWhile
  rw [h]
  simp

/-- C7: the optimizer repeats merge rounds while the previous round merged
something, and stops at a fixed point: the final graph is unchanged by a
further merge round, so running the whole optimization a second time — with a
fresh rerun flag or with the instance flag left by the first run — changes
nothing. -/
theorem c7_fixed_point (g : Graph) :
    (optimizeAtCurrentGraphLevel true g).2 = false ∧
    mergeDuplicatedNodes (optimizeAtCurrentGraphLevel true g).1 false
      = ((optimizeAtCurrentGraphLevel true g).1, false) ∧
    optimizeAtCurrentGraphLevel true (optimizeAtCurrentGraphLevel true g).1
      = ((optimizeAtCurrentGraphLevel true g).1, false) ∧
    optimizeAtCurrentGraphLevel false (optimizeAtCurrentGraphLevel true g).1
      = ((optimizeAtCurrentGraphLevel true g).1, false) := by
  have hflag : (optimizeWhile (g.nodes.length + 1) g).2 = false :=
    optimizeWhile_flag_false _ _ (Nat.lt_succ_self _)
  have hpair : optimizeWhile (g.nodes.length + 1) g
      = ((optimizeWhile (g.nodes.length + 1) g).1, false) :=
    Prod.ext rfl hflag
  have clean := optimizeWhile_clean hpair
  exact ⟨hflag, clean, optimizeWhile_fixed clean _, rfl⟩

def C10src : Node := { name := "src", type := "Src", input := [], output := ["t0"] }
def C10a : Node := { name := "a", type := "Abs", input := ["t0"], output := ["a0"] }
def C10b : Node := { name := "b", type := "Abs", input := ["t0"], output := ["b0"] }

/-- `C10G` contains the mergeable duplicates `a` and `b` (a fresh-flag run
does merge them). -/
def C10G : Graph := { nodes := [C10src, C10a, C10b], outputs := [] }

/-- C10: the rerun flag is per-optimizer-instance state.  A completed call
leaves the flag false, and any call entered with the flag false performs zero
merge rounds and returns its argument unchanged — even on `C10G`, whose
duplicates a fresh-flag call does merge. -/
theorem c10_flag_per_instance :
    (∀ g : Graph, (optimizeAtCurrentGraphLevel true g).2 = false) ∧
    (∀ g : Graph, optimizeAtCurrentGraphLevel false g = (g, false)) ∧
    ¬ (optimizeAtCurrentGraphLevel true C10G).1 = C10G ∧
    optimizeAtCurrentGraphLevel false C10G = (C10G, false) := by
  refine ⟨fun g => optimizeWhile_flag_false _ _ (Nat.lt_succ_self _), fun g => rfl, ?_, rfl⟩
  decide

/-!
## Loop rewriter base (`loop_rewriter_base.py`)

Python exceptions are modelled by `Except RewriteError`.  `valueError` and
`makeSureError` are the deliberate structural checks (the specification's
StructuralAssumptionViolated / DuplicateVariableDeclaration taxonomy:
`raise ValueError(...)` and `utils.make_sure(...)`), while `attributeError`,
`indexError` and `keyError` model the incidental Python exceptions raised by
attribute access on `None`, out-of-range indexing and missing dict keys.
-/

inductive RewriteError where
  | valueError (msg : String)
  | makeSureError (msg : String)
  | attributeError (msg : String)
  | indexError (msg : String)
  | keyError (msg : String)
deriving Repr, DecidableEq

/-- `LoopVariable`: tensor references (`TensorValueInfo`) are their id
strings; optional ones (`switch_true_identity_output`, `exit_output`,
`ta_index_id`) model Python `None` by `Option`. -/
structure LoopVariable where
  enter_name : String
  enter_input_id : String
  next_iteration_input : String
  switch_true_identity_output : Option String
  exit_output : Option String
  is_tensor_array : Bool
  ta_index_id : Option String
deriving Repr, DecidableEq

/-- `LoopProperties`: the two insertion-ordered buckets, keyed by enter
name. -/
structure LoopProperties where
  state_variables : List (String × LoopVariable) := []
  scan_variables : List (String × LoopVariable) := []
deriving Repr, DecidableEq

/-- `LoopProperties.add_variable`: the two `make_sure` guards (scan bucket
checked first, as in the source), then insertion into the bucket selected by
`is_tensor_array`.  `OrderedDict` assignment of a fresh key appends. -/
def LoopProperties.addVariable (p : LoopProperties) (v : LoopVariable) :
    Except RewriteError LoopProperties :=
  if p.scan_variables.any (fun kv => kv.1 = v.enter_name) then
    .error (.makeSureError ("variable " ++ v.enter_name ++ " already exists as scan variable."))
  else if p.state_variables.any (fun kv => kv.1 = v.enter_name) then
    .error (.makeSureError ("variable " ++ v.enter_name ++ " already exists as state variable."))
  else if v.is_tensor_array then
    .ok { p with scan_variables := p.scan_variables ++ [(v.enter_name, v)] }
  else
    .ok { p with state_variables := p.state_variables ++ [(v.enter_name, v)] }

/-- `all_variables[name]`: the merged dict `state.copy(); update(scan)` — a
scan entry shadows a state entry of the same name. -/
def LoopProperties.allVariablesFind (p : LoopProperties) (name : String) : Option LoopVariable :=
  match p.scan_variables.find? (fun kv => kv.1 = name) with
  | some kv => some kv.2
  | none =>
    match p.state_variables.find? (fun kv => kv.1 = name) with
    | some kv => some kv.2
    | none => none

/-- Modelled from the spec: `is_loopcond_op` from `rnn_utils` (not under
src/) — recognises the boolean loop predicate anchor. -/
def isLoopCondOp (n : Node) : Bool := n.type = "LoopCond"

/-- Modelled from the spec: `is_tensor_array_op` from `rnn_utils` (not under
src/) — recognises the tensor-array-creation primitive. -/
def isTensorArrayOp (n : Node) : Bool := n.type = "TensorArrayV3"

/-- Modelled from the spec: `is_tensor_array_write_op` from `rnn_utils` (not
under src/). -/
def isTensorArrayWriteOp (n : Node) : Bool := n.type = "TensorArrayWriteV3"

/-- Modelled from the spec: `is_tensor_array_gather_op` from `rnn_utils` (not
under src/). -/
def isTensorArrayGatherOp (n : Node) : Bool := n.type = "TensorArrayGatherV3"

def liftOpt {α : Type} (e : RewriteError) : Option α → Except RewriteError α
  | some a => .ok a
  | none => .error e

/-- The consumer-count dispatch of lines 343-352: 0 consumers: absent;
exactly one consumer that must be an `Identity` (else `raise ValueError`):
its output; 2 or more consumers: `raise ValueError`. -/
def trueBranchOfConsumers : List Node → Except RewriteError (Option String)
  | [] => .ok none
  | [c] =>
    if c.type = "Identity" then
      match c.output.head? with
      | some cid => .ok (some cid)
      | none => .error (.indexError "identity.output[0]")
    else .error (.valueError "switch has consumer that is not Identity")
  | _ :: _ :: _ => .error (.valueError "switch_true has unexpected count of consumers")

/-- Lines 341-352 of `_get_loop_var_from_switch`: the true-branch (body
entry) output is `switch_node.output[1]`; its consumers decide the
body-entry tensor reference. -/
def switchTrueBranch (g : Graph) (s : Node) : Except RewriteError (Option String) :=
  match s.output.get? 1 with
  | none => .error (.indexError "switch_node.output[1]")
  | some outTrue => trueBranchOfConsumers (g.findOutputConsumers outTrue)

/-- Lines 362-375: the false-branch (exit) output `switch_node.output[0]`:
exactly one consumer that must be an `Exit` node, or no consumer at all. -/
def switchFalseBranch (g : Graph) (s : Node) : Except RewriteError (Option String) :=
  match s.output.head? with
  | none => .error (.indexError "switch_node.output[0]")
  | some outFalse =>
    match g.findOutputConsumers outFalse with
    | [c] =>
      if c.type = "Exit" then
        match c.output.head? with
        | some eid => .ok (some eid)
        | none => .error (.indexError "exit.output[0]")
      else .error (.valueError "switch false branch is followed by non-Exit")
    | [] => .ok none
    | _ :: _ :: _ => .error (.valueError "unexpected number of switch false consumers")

/-- Lines 377-394: tensor-array handling.  The producer of the raw
next-iteration tensor must be a tensor-array write (`make_sure`); the
recorded next-iteration value becomes the write's value operand (input 2)
and its index operand (input 1) is recorded; a recorded exit tensor is
replaced by the output of its tensor-array-gather consumer.  Returns
(next-iteration id, ta index id, exit id). -/
def taRewrite (g : Graph) (lastIterationOutputId : String) (exitOutputId : Option String) :
    Except RewriteError (String × String × Option String) :=
  match g.getNodeByOutput lastIterationOutputId with
  | none => .error (.attributeError "ta write lookup: no producer node")
  | some taWriteNode =>
    if ¬ isTensorArrayWriteOp taWriteNode then
      .error (.makeSureError "ta nextiteration is not following ta write op")
    else
      match taWriteNode.input.get? 2, taWriteNode.input.get? 1 with
      | some valueId, some indexId =>
        match exitOutputId with
        | none => .ok (valueId, indexId, none)
        | some eid =>
          match ((g.findOutputConsumers eid).filter (fun n => isTensorArrayGatherOp n)).head? with
          | none => .error (.indexError "no TensorArrayGather consumer of the Exit output")
          | some gatherNode =>
            match gatherNode.output.head? with
            | some gid => .ok (valueId, indexId, some gid)
            | none => .error (.indexError "gather.output[0]")
      | _, _ => .error (.indexError "ta_write_node.input[1] or input[2]")

/-- The `LoopVariable` constructor: `make_sure(next_iteration_input_id, ...)`
rejects a falsy (empty) id. -/
def mkLoopVar (enterName enterInputId nextIterationInputId : String)
    (switchTrueIdentityOutputId exitOutputId : Option String)
    (isTa : Bool) (taIndexId : Option String) : Except RewriteError LoopVariable :=
  if nextIterationInputId = "" then
    .error (.makeSureError "next_iteration_input_id should not be None")
  else
    .ok { enter_name := enterName, enter_input_id := enterInputId,
          next_iteration_input := nextIterationInputId,
          switch_true_identity_output := switchTrueIdentityOutputId,
          exit_output := exitOutputId, is_tensor_array := isTa, ta_index_id := taIndexId }

/-- `_get_loop_var_from_switch(switch_node)`.  The two `log.error(...);
return None` paths (non-Switch argument, first operand not produced by a
Merge) yield `ok none`; every `raise` yields an error.  The `log.debug` on
line 357 dereferences `enter_node.inputs[0].name`, so a missing producer of
the enter input raises before the tensor-array check does. -/
def getLoopVarFromSwitch (g : Graph) (switchNode : Node) :
    Except RewriteError (Option LoopVariable) := do
  if ¬ switchNode.type = "Switch" then
    return none
  let firstInputId ← liftOpt (.indexError "switch_node.inputs[0]") switchNode.input.head?
  let mergeNode ← liftOpt (.attributeError "switch first input has no producer node")
    (g.getNodeByOutput firstInputId)
  if ¬ mergeNode.type = "Merge" then
    return none
  let switchTrueIdentityOutput ← switchTrueBranch g switchNode
  let enterNode ← liftOpt (.indexError "merge node has no Enter input")
    ((Node.inputsOf g mergeNode).find? (fun n => n.type = "Enter"))
  let targetNodeInputId ← liftOpt (.indexError "enter_node.input[0]") enterNode.input.head?
  let enterInputProducer ← liftOpt (.attributeError "enter input has no producer node")
    (g.getNodeByOutput targetNodeInputId)
  let nextIterationNode ← liftOpt (.indexError "merge node has no NextIteration input")
    ((Node.inputsOf g mergeNode).find? (fun n => n.type = "NextIteration"))
  let lastIterationOutputId ← liftOpt (.indexError "next_iteration.input[0]")
    nextIterationNode.input.head?
  let exitOutputId ← switchFalseBranch g switchNode
  if isTensorArrayOp enterInputProducer then
    let r ← taRewrite g lastIterationOutputId exitOutputId
    let v ← mkLoopVar enterNode.name targetNodeInputId r.1 switchTrueIdentityOutput r.2.2
      true (some r.2.1)
    return some v
  else
    let v ← mkLoopVar enterNode.name targetNodeInputId lastIterationOutputId
      switchTrueIdentityOutput exitOutputId false none
    return some v

/-- `_parse_loop_variables(context)`: every consumer of the loop-condition
output must be a `Switch` (else `raise ValueError`); each switch is
classified and the result passed to `add_variable`.  When
`_get_loop_var_from_switch` returned `None`, `add_variable(None)` evaluates
`None.enter_name` and raises `AttributeError`.  (The scope-label derivation
of lines 235-237 is diagnostic only and not modelled.) -/
def parseLoopVariables (g : Graph) (loopCondOp : Node) : Except RewriteError LoopProperties := do
  let out0 ← liftOpt (.indexError "loop_cond_op.output[0]") loopCondOp.output.head?
  let switchNodes := g.findOutputConsumers out0
  switchNodes.foldlM (fun props s => do
      if ¬ s.type = "Switch" then
        throw (.valueError "LoopCond output node should be followed with a Switch node")
      let lv ← getLoopVarFromSwitch g s
      match lv with
      | none => throw (.attributeError "NoneType object has no attribute enter_name")
      | some v => props.addVariable v)
    { state_variables := [], scan_variables := [] }

/-- `INVALID_INPUT_ID = utils.make_name("invalid_input_id")`: a sentinel
tensor id produced by no node. -/
def invalidInputId : String := "invalid_input_id"

structure SubgraphState where
  res : List Node
  enters : List Node
  merges : List Node
  visited : List String
deriving Repr, DecidableEq

/-- Modelled from the spec: the Graph Collaborator's
`extract_sub_graph_nodes` driven by the `find_input_boundary` checker of
`find_subgraph` (spec 4.2): backward traversal from the output producers
that stops — excluding the node but recording it — at `Enter` nodes, at
`Merge` nodes when `merge_as_end` is set, at constant nodes, and at nodes
producing a tensor of the input set.  `visited` dedupes by node name (the
source collects nodes into sets). -/
def findSubgraphGo (g : Graph) (inputIds : List String) (mergeAsEnd : Bool) :
    Nat → List Node → SubgraphState → SubgraphState
  | 0, _, st => st
  | _ + 1, [], st => st
  | fuel + 1, n :: queue, st =>
    if st.visited.contains n.name then
      findSubgraphGo g inputIds mergeAsEnd fuel queue st
    else if n.type = "Enter" then
      findSubgraphGo g inputIds mergeAsEnd fuel queue
        { st with visited := st.visited ++ [n.name], enters := st.enters ++ [n] }
    else if mergeAsEnd && n.type = "Merge" then
      findSubgraphGo g inputIds mergeAsEnd fuel queue
        { st with visited := st.visited ++ [n.name], merges := st.merges ++ [n] }
    else if n.isConst then
      findSubgraphGo g inputIds mergeAsEnd fuel queue
        { st with visited := st.visited ++ [n.name] }
    else if n.output.any (fun o => inputIds.contains o) then
      findSubgraphGo g inputIds mergeAsEnd fuel queue
        { st with visited := st.visited ++ [n.name] }
    else
      findSubgraphGo g inputIds mergeAsEnd fuel (Node.inputsOf g n ++ queue)
        { st with visited := st.visited ++ [n.name], res := st.res ++ [n] }

/-- Generous fuel: the traversal dequeues at most the seeds plus one node per
input edge of the graph. -/
def subgraphFuel (g : Graph) (outputIds : List String) : Nat :=
  1 + g.nodes.length + (g.nodes.map (fun n => n.input.length)).sum + outputIds.length

/-- `find_subgraph(input_ids, output_ids, g, merge_as_end)`: returns
(nodes, enter boundary nodes, merge boundary nodes). -/
def findSubgraph (g : Graph) (inputIds outputIds : List String) (mergeAsEnd : Bool) :
    List Node × List Node × List Node :=
  let seeds := outputIds.filterMap g.getNodeByOutput
  let st := findSubgraphGo g inputIds mergeAsEnd (subgraphFuel g outputIds) seeds
    { res := [], enters := [], merges := [], visited := [] }
  (st.res, st.enters, st.merges)

/-- `GraphInfo`: result of cropping. -/
structure GraphInfoM where
  nodes : List Node
  inputs : List String
  outputs : List String
  dependent_vars : List LoopVariable
deriving Repr, DecidableEq

/-- Python writes `None` into a rewired input slot when the variable has no
body-entry tensor; the sentinel string is produced by no node, matching the
effect. -/
def optId : Option String → String
  | some i => i
  | none => "None"

/-- Lines 292-301 of `_crop_loop_condition_sub_graph`, one step per excluded
merge node: find the `Enter` producer among the merge node's inputs
(`IndexError` when absent), look the loop variable up by the enter node's
name (`KeyError` when absent), rewire every non-`Switch` consumer of the
merge node's output to the variable's body-entry tensor, and append the
variable to the dependency list.  The merge node's own skeleton (name and
output list) is never mutated by these rewirings, so the snapshot node is
used directly; its producers are resolved against the current graph. -/
def rewireMerges (p : LoopProperties) : List Node → Graph → List LoopVariable →
    Except RewriteError (Graph × List LoopVariable)
  | [], g, acc => .ok (g, acc)
  | m :: rest, g, acc =>
    match (Node.inputsOf g m).find? (fun n => n.type = "Enter") with
    | none => .error (.indexError "merge node has no Enter input in crop")
    | some enterNode =>
      match p.allVariablesFind enterNode.name with
      | none => .error (.keyError enterNode.name)
      | some v =>
        match m.output.head? with
        | none => .error (.indexError "merge_node.output[0]")
        | some mergeOut =>
          rewireMerges p rest
            (g.replaceAllInputsIn
              (((g.findOutputConsumers mergeOut).filter (fun n => ¬ n.type = "Switch")).map
                Node.name)
              mergeOut (optId v.switch_true_identity_output))
            (acc ++ [v])

/-- Lines 288-290 of `_crop_loop_condition_sub_graph`: reconnect each
excluded `Enter` node's output to its own input, within the cropped node
set. -/
def enterReconnect (opNames : List String) : List Node → Graph → Except RewriteError Graph
  | [], gc => .ok gc
  | e :: rest, gc =>
    match e.output.head?, e.input.head? with
    | some eo, some ei => enterReconnect opNames rest (gc.replaceAllInputsIn opNames eo ei)
    | none, _ => .error (.indexError "enter_node.output[0]")
    | some _, none => .error (.indexError "enter_node.input[0]")

/-- `_crop_loop_condition_sub_graph(context)`: crop backwards from the loop
condition's operand with merge nodes as boundaries, reconnect each excluded
`Enter` output to its input inside the cropped node set, process the merge
boundaries (`rewireMerges`), then run line 304:
`replace_all_inputs([context.loop_cond], loop_cond.output[0], INVALID_INPUT_ID)`
— a rewiring whose node set is the loop-condition node itself.  `GraphInfo`
holds the cropped node objects, which the rewirings mutate in place in the
source, so their final state is read back from the graph. -/
def cropLoopConditionSubGraph (g : Graph) (loopCond : Node) (p : LoopProperties) :
    Except RewriteError (Graph × GraphInfoM) :=
  match loopCond.input.head? with
  | none => .error (.indexError "loop_cond.input[0]")
  | some condInput =>
    match enterReconnect ((findSubgraph g [] [condInput] true).1.map Node.name)
        (findSubgraph g [] [condInput] true).2.1 g with
    | .error e => .error e
    | .ok g1 =>
      match rewireMerges p (findSubgraph g [] [condInput] true).2.2 g1 [] with
      | .error e => .error e
      | .ok r =>
        match loopCond.output.head? with
        | none => .error (.indexError "loop_cond.output[0]")
        | some lco =>
          .ok (r.1.replaceAllInputsIn [loopCond.name] lco invalidInputId,
               { nodes := (r.1.replaceAllInputsIn [loopCond.name] lco invalidInputId).nodes.filter
                   (fun n => ((findSubgraph g [] [condInput] true).1.map Node.name).contains n.name),
                 inputs := [], outputs := [condInput], dependent_vars := r.2 })

/-- Modelled from the spec: the Graph Collaborator's `delete_unused_nodes`
(not under src/) — the final reachability cleanup seeded from the declared
outputs, dropping every unreached node (spec 4.4). -/
def reachableNames (g : Graph) : Nat → List Node → List String → List String
  | 0, _, acc => acc
  | _ + 1, [], acc => acc
  | fuel + 1, n :: queue, acc =>
    if acc.contains n.name then reachableNames g fuel queue acc
    else reachableNames g fuel (Node.inputsOf g n ++ queue) (acc ++ [n.name])

/-- Modelled from the spec: `graph.delete_unused_nodes(outputs)`. -/
def deleteUnusedNodes (g : Graph) : Graph :=
  let seeds := g.outputs.filterMap g.getNodeByOutput
  let keep := reachableNames g (subgraphFuel g g.outputs) seeds []
  { g with nodes := g.nodes.filter (fun n => keep.contains n.name) }

/-- Lines 224-227 of `run_internal`: the final cleanup phase runs only when
the parent graph declares outputs (`if self.g.outputs:` — an empty list is
falsy). -/
def runInternalCleanup (g : Graph) : Graph :=
  if g.outputs.isEmpty then g else deleteUnusedNodes g

/-!
## Claims about the loop rewriter
-/

/-- C8: `add_variable` puts a non-tensor-array variable into the state
bucket and a tensor-array variable into the scan bucket; a variable whose
enter name is already a key of either bucket is rejected by `make_sure`
(DuplicateVariableDeclaration) before anything is registered. -/
theorem c8_add_variable (p : LoopProperties) (v : LoopVariable) :
    ((p.scan_variables.any (fun kv => kv.1 = v.enter_name) = true ∨
      p.state_variables.any (fun kv => kv.1 = v.enter_name) = true) →
      ∃ msg, p.addVariable v = .error (.makeSureError msg)) ∧
    (p.scan_variables.any (fun kv => kv.1 = v.enter_name) = false →
     p.state_variables.any (fun kv => kv.1 = v.enter_name) = false →
      (v.is_tensor_array = false →
        p.addVariable v
          = .ok { p with state_variables := p.state_variables ++ [(v.enter_name, v)] }) ∧
      (v.is_tensor_array = true →
        p.addVariable v
          = .ok { p with scan_variables := p.scan_variables ++ [(v.enter_name, v)] })) := by
  constructor
  · intro h
    by_cases hs : p.scan_variables.any (fun kv => kv.1 = v.enter_name) = true
    · refine ⟨"variable " ++ v.enter_name ++ " already exists as scan variable.", ?_⟩
      unfold LoopProperties.addVariable
      rw [if_pos hs]
    · have hst : p.state_variables.any (fun kv => kv.1 = v.enter_name) = true := by
        rcases h with h | h
        · exact absurd h hs
        · exact h
      refine ⟨"variable " ++ v.enter_name ++ " already exists as state variable.", ?_⟩
      unfold LoopProperties.addVariable
      rw [if_neg hs, if_pos hst]
  · intro hs hst
    have hs' : ¬ p.scan_variables.any (fun kv => kv.1 = v.enter_name) = true := by simp [hs]
    have hst' : ¬ p.state_variables.any (fun kv => kv.1 = v.enter_name) = true := by simp [hst]
    constructor
    · intro hta
      unfold LoopProperties.addVariable
      rw [if_neg hs', if_neg hst', if_neg (by simp [hta])]
    · intro hta
      unfold LoopProperties.addVariable
      rw [if_neg hs', if_neg hst', if_pos hta]

def C8v : LoopVariable :=
  { enter_name := "x", enter_input_id := "i0", next_iteration_input := "n0",
    switch_true_identity_output := none, exit_output := none,
    is_tensor_array := false, ta_index_id := none }

def P8 : LoopProperties := {}

def P8dup : LoopProperties := { state_variables := [("x", C8v)] }

theorem c8_witness :
    (LoopProperties.addVariable P8 C8v
       = .ok { state_variables := [("x", C8v)], scan_variables := [] }) ∧
    (∃ msg, LoopProperties.addVariable P8dup C8v = .error (.makeSureError msg)) := by
  constructor
  · exact ((c8_add_variable P8 C8v).2 (by decide) (by decide)).1 (by decide)
  · exact (c8_add_variable P8dup C8v).1 (Or.inr (by decide))

/-- C4: the dispatch on the number of consumers of the true-branch output: 0
consumers records the body-entry reference as absent; exactly one consumer
that is an identity records that identity's output; one non-identity
consumer raises the structural ValueError; two or more consumers always
raise the structural ValueError. -/
theorem c4_switch_true_branch (g : Graph) (s : Node) (outTrue : String)
    (h : s.output.get? 1 = some outTrue) :
    (g.findOutputConsumers outTrue = [] → switchTrueBranch g s = .ok none) ∧
    (∀ c cid, g.findOutputConsumers outTrue = [c] → c.type = "Identity" →
        c.output.head? = some cid → switchTrueBranch g s = .ok (some cid)) ∧
    (∀ c, g.findOutputConsumers outTrue = [c] → ¬ c.type = "Identity" →
        switchTrueBranch g s
          = .error (.valueError "switch has consumer that is not Identity")) ∧
    (∀ c1 c2 cs, g.findOutputConsumers outTrue = c1 :: c2 :: cs →
        switchTrueBranch g s
          = .error (.valueError "switch_true has unexpected count of consumers")) := by
  have hs : switchTrueBranch g s = trueBranchOfConsumers (g.findOutputConsumers outTrue) := by
    unfold switchTrueBranch
    rw [h]
  refine ⟨?_, ?_, ?_, ?_⟩
  · intro hc
    rw [hs, hc]
    rfl
  · intro c cid hc hid hcid
    rw [hs, hc]
    simp only [trueBranchOfConsumers]
    rw [if_pos hid, hcid]
  · intro c hc hid
    rw [hs, hc]
    simp only [trueBranchOfConsumers]
    rw [if_neg hid]
  · intro c1 c2 cs hc
    rw [hs, hc]
    rfl

def C4s : Node := { name := "sw", type := "Switch", input := ["m0", "lc0"], output := ["f0", "t0"] }
def C4id : Node := { name := "ident", type := "Identity", input := ["t0"], output := ["id0"] }
def C4G : Graph := { nodes := [C4s, C4id], outputs := [] }

theorem c4_witness : switchTrueBranch C4G C4s = .ok (some "id0") :=
  (c4_switch_true_branch C4G C4s "t0" (by decide)).2.1 C4id "id0" (by decide) (by decide)
    (by decide)

/-- C3 evidence: a conditional-switch consuming the loop predicate whose
first operand is produced by a `Const` node instead of a loop-merge node.
`_get_loop_var_from_switch` logs and returns `None` (no structural error),
and `_parse_loop_variables` then calls `add_variable(None)`, which raises
`AttributeError` on `var.enter_name` — not the deliberate
StructuralAssumptionViolated ValueError the spec requires. -/
def C3lc : Node := { name := "lc", type := "LoopCond", input := ["p0"], output := ["lc0"] }
def C3const : Node :=
  { name := "cst", type := "Const", input := [], output := ["c0"], isConst := true }
def C3s : Node := { name := "s", type := "Switch", input := ["c0", "lc0"], output := ["s0", "s1"] }
def C3G : Graph := { nodes := [C3lc, C3const, C3s], outputs := [] }

theorem c3_merge_check_attribute_error :
    (getLoopVarFromSwitch C3G C3s = .ok none) ∧
    (parseLoopVariables C3G C3lc
      = .error (.attributeError "NoneType object has no attribute enter_name")) ∧
    (∀ msg : String, ¬ parseLoopVariables C3G C3lc = .error (.valueError msg)) ∧
    (∀ msg : String, ¬ parseLoopVariables C3G C3lc = .error (.makeSureError msg)) := by
  refine ⟨rfl, rfl, ?_, ?_⟩
  · intro msg hc
    rw [show parseLoopVariables C3G C3lc
        = .error (.attributeError "NoneType object has no attribute enter_name") from rfl] at hc
    exact RewriteError.noConfusion (Except.error.inj hc)
  · intro msg hc
    rw [show parseLoopVariables C3G C3lc
        = .error (.attributeError "NoneType object has no attribute enter_name") from rfl] at hc
    exact RewriteError.noConfusion (Except.error.inj hc)

/-- C2 evidence: a well-formed condition subgraph (`Enter e → Less p →
LoopCond lc → Switch s`).  After `_crop_loop_condition_sub_graph`, line 304
rewires within the node set `[context.loop_cond]` — the loop-condition node
itself, whose input list never contains its own output — so nothing
changes: no node reads the invalid sentinel, and the single consumer (the
Switch `s`) still reads `lc0`.  The loop-condition node is NOT detached. -/
def C2e : Node := { name := "e", type := "Enter", input := ["init0"], output := ["e0"] }
def C2c : Node :=
  { name := "cst", type := "Const", input := [], output := ["c0"], isConst := true }
def C2p : Node := { name := "p", type := "Less", input := ["e0", "c0"], output := ["p0"] }
def C2lc : Node := { name := "lc", type := "LoopCond", input := ["p0"], output := ["lc0"] }
def C2s : Node := { name := "s", type := "Switch", input := ["m0", "lc0"], output := ["s0", "s1"] }
def C2G : Graph := { nodes := [C2e, C2c, C2p, C2lc, C2s], outputs := [] }
def C2props : LoopProperties := {}

theorem c2_loopcond_not_detached :
    ((cropLoopConditionSubGraph C2G C2lc C2props).toOption.map
        (fun r => (r.1.nodes.filter (fun n => n.input.contains invalidInputId)).length))
      = some 0 ∧
    ((cropLoopConditionSubGraph C2G C2lc C2props).toOption.map
        (fun r => (r.1.nodes.find? (fun n => n.name = "s")).map Node.input))
      = some (some ["m0", "lc0"]) ∧
    ((cropLoopConditionSubGraph C2G C2lc C2props).toOption.map
        (fun r => (r.1.findOutputConsumers "lc0").map Node.name))
      = some ["s"] := by
  exact ⟨rfl, rfl, rfl⟩

/-!
### C6: the condition subgraph's dependency list

Input rewiring never changes a node's name, type or output list, so producer
resolution (`get_node_by_output`) yields skeleton-identical nodes in any
`Sim`-related graph.  This lets the `Enter`-producer lookup of each merge
boundary be read off the graph state in which the merge loop starts.
-/

def optSkel : Option Node → Option (String × String)
  | none => none
  | some n => some (n.name, n.type)

theorem optSkel_none {o : Option Node} (h : optSkel o = none) : o = none := by
  cases o with
  | none => rfl
  | some a => exact Option.noConfusion h

theorem optSkel_some {o : Option Node} {q : String × String} (h : optSkel o = some q) :
    ∃ n, o = some n ∧ n.name = q.1 ∧ n.type = q.2 := by
  cases o with
  | none => exact Option.noConfusion h
  | some a =>
    have he := Option.some.inj h
    exact ⟨a, rfl, by rw [← he], by rw [← he]⟩

theorem find?_output_skel : ∀ {l1 l2 : List Node}, List.Forall₂ NodeSim l1 l2 → ∀ (t : String),
    optSkel (l2.find? (fun n => n.output.contains t))
      = optSkel (l1.find? (fun n => n.output.contains t)) := by
  intro l1 l2 h
  induction h with
  | nil => intro t; rfl
  | @cons a b t1 t2 hab _ ih =>
    intro t
    by_cases hma : t ∈ a.output
    · have hmb : t ∈ b.output := by rw [hab.2.2.1]; exact hma
      simp [List.find?_cons, hma, hmb, optSkel, hab.1, hab.2.1]
    · have hmb : ¬ t ∈ b.output := by rw [hab.2.2.1]; exact hma
      simpa [List.find?_cons, hma, hmb] using ih t

theorem getNodeByOutput_skel {g g' : Graph} (h : Sim g g') (t : String) :
    optSkel (g'.getNodeByOutput t) = optSkel (g.getNodeByOutput t) :=
  find?_output_skel h.2 t

theorem filterMap_find_skel {g g' : Graph} (h : Sim g g') (ty : String) :
    ∀ (ids : List String),
      optSkel ((ids.filterMap g'.getNodeByOutput).find? (fun n => n.type = ty))
        = optSkel ((ids.filterMap g.getNodeByOutput).find? (fun n => n.type = ty))
  | [] => rfl
  | i :: rest => by
    have hskel := getNodeByOutput_skel h i
    cases hA : g.getNodeByOutput i with
    | none =>
      rw [hA] at hskel
      have hB := optSkel_none hskel
      simp only [List.filterMap_cons, hA, hB]
      exact filterMap_find_skel h ty rest
    | some a =>
      rw [hA] at hskel
      obtain ⟨b, hB, hbn, hbt⟩ := optSkel_some hskel
      simp only [List.filterMap_cons, hA, hB]
      by_cases hta : a.type = ty
      · have htb : b.type = ty := by rw [hbt]; exact hta
        simp [List.find?_cons, hta, htb, optSkel, hbn, hbt]
      · have htb : ¬ b.type = ty := by rw [hbt]; exact hta
        simpa [List.find?_cons, hta, htb] using filterMap_find_skel h ty rest

theorem inputsOf_find_skel {g g' : Graph} (h : Sim g g') (ty : String) (m : Node) :
    optSkel ((Node.inputsOf g' m).find? (fun n => n.type = ty))
      = optSkel ((Node.inputsOf g m).find? (fun n => n.type = ty)) :=
  filterMap_find_skel h ty m.input

/-- The dependency-list and lookup behaviour of the merge-boundary loop,
relative to the graph state `g0` it starts in. -/
theorem rewireMerges_spec (p : LoopProperties) :
    ∀ (ms : List Node) (g0 gc : Graph) (acc : List LoopVariable) (g' : Graph)
      (deps : List LoopVariable),
      Sim g0 gc →
      rewireMerges p ms gc acc = .ok (g', deps) →
      Sim g0 g' ∧
      ∃ extra, deps = acc ++ extra ∧ extra.length = ms.length ∧
        (∀ i m, ms.get? i = some m →
          ∃ e v, (Node.inputsOf g0 m).find? (fun n => n.type = "Enter") = some e ∧
            p.allVariablesFind e.name = some v ∧ extra.get? i = some v)
  | [], g0, gc, acc, g', deps, hsim, hok => by
    unfold rewireMerges at hok
    have hpair := Except.ok.inj hok
    injection hpair with h1 h2
    subst h1
    subst h2
    refine ⟨hsim, [], by simp, rfl, ?_⟩
    intro i m hgm
    simp at hgm
  | m :: rest, g0, gc, acc, g', deps, hsim, hok => by
    unfold rewireMerges at hok
    split at hok
    · exact Except.noConfusion hok
    · rename_i enterNode heq1
      split at hok
      · exact Except.noConfusion hok
      · rename_i v heq2
        split at hok
        · exact Except.noConfusion hok
        · rename_i mo heq3
          have hsim2 : Sim g0 (gc.replaceAllInputsIn
              (((gc.findOutputConsumers mo).filter (fun n => ¬ n.type = "Switch")).map Node.name)
              mo (optId v.switch_true_identity_output)) :=
            sim_trans hsim (replaceAllInputsIn_sim _ _ _ _)
          obtain ⟨hsimF, extra', hdeps, hlen, hidx⟩ :=
            rewireMerges_spec p rest g0 _ (acc ++ [v]) g' deps hsim2 hok
          refine ⟨hsimF, v :: extra', ?_, ?_, ?_⟩
          · rw [hdeps]
            simp
          · simp [hlen]
          · intro i mm hgm
            cases i with
            | zero =>
              have hm : m = mm := Option.some.inj hgm
              subst hm
              have hskel := inputsOf_find_skel hsim "Enter" m
              rw [heq1] at hskel
              obtain ⟨e0, he0, hen, het⟩ := optSkel_some hskel.symm
              refine ⟨e0, v, he0, ?_, rfl⟩
              rw [hen]
              exact heq2
            | succ j =>
              exact hidx j mm hgm

/-- No non-`Switch` node of `g` reads tensor `o`. -/
def NoOldRefs (o : String) (g : Graph) : Prop :=
  ∀ n ∈ g.nodes, ¬ n.type = "Switch" → ¬ n.input.contains o = true

theorem contains_iff_mem {l : List String} {a : String} : l.contains a = true ↔ a ∈ l :=
  List.elem_iff

/-- Rewiring the non-`Switch` consumers of `o` away from `o` leaves no
non-`Switch` reader of `o`. -/
theorem replaceConsumers_noOldRefs (g : Graph) (o newId : String) (hne : ¬ newId = o) :
    NoOldRefs o (g.replaceAllInputsIn
      (((g.findOutputConsumers o).filter (fun n => ¬ n.type = "Switch")).map Node.name)
      o newId) := by
  intro n' hmem hty
  obtain ⟨n, hn, hfn⟩ := List.mem_map.mp hmem
  subst hfn
  by_cases hin : (((g.findOutputConsumers o).filter (fun n => ¬ n.type = "Switch")).map
      Node.name).contains n.name = true
  · rw [if_pos hin]
    intro hc
    obtain ⟨x, hx, hxe⟩ := List.mem_map.mp (contains_iff_mem.mp hc)
    by_cases hxo : x = o
    · rw [if_pos hxo] at hxe; exact hne hxe
    · rw [if_neg hxo] at hxe; exact hxo hxe
  · rw [if_neg hin] at hty ⊢
    intro hc
    apply hin
    refine contains_iff_mem.mpr (List.mem_map.mpr ⟨n, ?_, rfl⟩)
    refine List.mem_filter.mpr ⟨List.mem_filter.mpr ⟨hn, hc⟩, ?_⟩
    exact decide_eq_true hty

/-- Any later rewiring whose replacement id differs from `o` cannot
reintroduce a reader of `o`. -/
theorem replaceAllInputsIn_noOldRefs_preserve {o : String} {g : Graph}
    (h : NoOldRefs o g) (names : List String) (old newId : String) (hne : ¬ newId = o) :
    NoOldRefs o (g.replaceAllInputsIn names old newId) := by
  intro n' hmem hty
  obtain ⟨n, hn, hfn⟩ := List.mem_map.mp hmem
  subst hfn
  by_cases hin : names.contains n.name = true
  · rw [if_pos hin] at hty ⊢
    intro hc
    obtain ⟨x, hx, hxe⟩ := List.mem_map.mp (contains_iff_mem.mp hc)
    by_cases hxo : x = old
    · rw [if_pos hxo] at hxe; exact hne hxe
    · rw [if_neg hxo] at hxe
      exact (h n hn hty) (contains_iff_mem.mpr (hxe ▸ hx))
  · rw [if_neg hin] at hty ⊢
    exact h n hn hty

theorem rewireMerges_acc_mem (p : LoopProperties) :
    ∀ (ms : List Node) (gc : Graph) (acc : List LoopVariable) (g' : Graph)
      (deps : List LoopVariable),
      rewireMerges p ms gc acc = .ok (g', deps) → ∀ v ∈ acc, v ∈ deps
  | [], gc, acc, g', deps, hok => by
    unfold rewireMerges at hok
    have hpair := Except.ok.inj hok
    injection hpair with h1 h2
    subst h2
    exact fun v hv => hv
  | m :: rest, gc, acc, g', deps, hok => by
    unfold rewireMerges at hok
    split at hok
    · exact Except.noConfusion hok
    · split at hok
      · exact Except.noConfusion hok
      · split at hok
        · exact Except.noConfusion hok
        · intro v hv
          exact rewireMerges_acc_mem p rest _ _ _ _ hok v (List.mem_append.mpr (Or.inl hv))

theorem rewireMerges_noRefs_preserve (p : LoopProperties) {o : String} :
    ∀ (ms : List Node) (gc : Graph) (acc : List LoopVariable) (g' : Graph)
      (deps : List LoopVariable),
      rewireMerges p ms gc acc = .ok (g', deps) →
      (∀ v ∈ deps, ¬ optId v.switch_true_identity_output = o) →
      NoOldRefs o gc → NoOldRefs o g'
  | [], gc, acc, g', deps, hok, _, hg => by
    unfold rewireMerges at hok
    have hpair := Except.ok.inj hok
    injection hpair with h1 h2
    subst h1
    exact hg
  | m :: rest, gc, acc, g', deps, hok, Hno, hg => by
    unfold rewireMerges at hok
    split at hok
    · exact Except.noConfusion hok
    · rename_i enterNode heq1
      split at hok
      · exact Except.noConfusion hok
      · rename_i v heq2
        split at hok
        · exact Except.noConfusion hok
        · rename_i mo heq3
          have hv : v ∈ deps :=
            rewireMerges_acc_mem p rest _ _ _ _ hok v
              (List.mem_append.mpr (Or.inr (List.mem_singleton.mpr rfl)))
          exact rewireMerges_noRefs_preserve p rest _ _ _ _ hok Hno
            (replaceAllInputsIn_noOldRefs_preserve hg _ _ _ (Hno v hv))

/-- After the merge-boundary loop, no non-`Switch` node reads any processed
merge node's output, provided no variable's body-entry id collides with a
merge output id. -/
theorem rewireMerges_severs (p : LoopProperties) :
    ∀ (ms : List Node) (gc : Graph) (acc : List LoopVariable) (g' : Graph)
      (deps : List LoopVariable),
      rewireMerges p ms gc acc = .ok (g', deps) →
      (∀ v ∈ deps, ∀ m2 ∈ ms, ∀ o2, m2.output.head? = some o2 →
          ¬ optId v.switch_true_identity_output = o2) →
      ∀ m ∈ ms, ∀ o, m.output.head? = some o → NoOldRefs o g'
  | [], gc, acc, g', deps, hok, Hno => by
    intro m hm
    cases hm
  | m1 :: rest, gc, acc, g', deps, hok, Hno => by
    unfold rewireMerges at hok
    split at hok
    · exact Except.noConfusion hok
    · rename_i enterNode heq1
      split at hok
      · exact Except.noConfusion hok
      · rename_i v heq2
        split at hok
        · exact Except.noConfusion hok
        · rename_i mo heq3
          intro m hm o ho
          rcases List.mem_cons.mp hm with he | hm2
          · have hmo : mo = o := by
              rw [he] at ho
              exact Option.some.inj (heq3.symm.trans ho)
            have hv : v ∈ deps :=
              rewireMerges_acc_mem p rest _ _ _ _ hok v
                (List.mem_append.mpr (Or.inr (List.mem_singleton.mpr rfl)))
            have hne : ¬ optId v.switch_true_identity_output = o := Hno v hv m hm o ho
            have hstep : NoOldRefs o (gc.replaceAllInputsIn
                (((gc.findOutputConsumers mo).filter (fun n => ¬ n.type = "Switch")).map
                  Node.name)
                mo (optId v.switch_true_identity_output)) := by
              rw [← hmo] at hne ⊢
              exact replaceConsumers_noOldRefs gc mo _ hne
            exact rewireMerges_noRefs_preserve p rest _ _ _ _ hok
              (fun v2 hv2 => Hno v2 hv2 m hm o ho) hstep
          · exact rewireMerges_severs p rest _ _ _ _ hok
              (fun v2 hv2 m2 hm2b o2 ho2 => Hno v2 hv2 m2 (List.mem_cons_of_mem _ hm2b) o2 ho2)
              m hm2 o ho

/-- C6: after cropping the condition subgraph, the recorded dependency list
is exactly one loop variable per excluded merge node, each obtained by
looking the merge node's `Enter` producer up in the loop-variable map; and
(provided no body-entry id or the invalid sentinel collides with a merge
output id) every non-`Switch` consumer of each merge output has been rewired
away from it. -/
theorem c6_condition_dependencies (g : Graph) (lc : Node) (p : LoopProperties)
    (g3 : Graph) (info : GraphInfoM) (condInput : String)
    (hci : lc.input.head? = some condInput)
    (hok : cropLoopConditionSubGraph g lc p = .ok (g3, info)) :
    ∃ g1 g2,
      enterReconnect ((findSubgraph g [] [condInput] true).1.map Node.name)
          (findSubgraph g [] [condInput] true).2.1 g = .ok g1 ∧
      rewireMerges p (findSubgraph g [] [condInput] true).2.2 g1 []
        = .ok (g2, info.dependent_vars) ∧
      info.dependent_vars.length = (findSubgraph g [] [condInput] true).2.2.length ∧
      (∀ i m, (findSubgraph g [] [condInput] true).2.2.get? i = some m →
        ∃ e v, (Node.inputsOf g1 m).find? (fun n => n.type = "Enter") = some e ∧
          p.allVariablesFind e.name = some v ∧ info.dependent_vars.get? i = some v) ∧
      ((∀ v ∈ info.dependent_vars, ∀ m ∈ (findSubgraph g [] [condInput] true).2.2,
          ∀ o, m.output.head? = some o → ¬ optId v.switch_true_identity_output = o) →
        ∀ m ∈ (findSubgraph g [] [condInput] true).2.2, ∀ o, m.output.head? = some o →
          ¬ invalidInputId = o →
          ∀ n ∈ g3.nodes, ¬ n.type = "Switch" → ¬ n.input.contains o = true) := by
  unfold cropLoopConditionSubGraph at hok
  split at hok
  · exact Except.noConfusion hok
  · rename_i condInput2 hci2
    have hcc : condInput2 = condInput := by
      rw [hci] at hci2
      exact (Option.some.inj hci2).symm
    subst hcc
    split at hok
    · exact Except.noConfusion hok
    · rename_i g1 henter
      split at hok
      · exact Except.noConfusion hok
      · rename_i r hmerge
        split at hok
        · exact Except.noConfusion hok
        · rename_i lco hlco
          have hpair := Except.ok.inj hok
          injection hpair with h1 h2
          subst h1
          subst h2
          obtain ⟨hsimF, extra, hdeps, hlen, hidx⟩ :=
            rewireMerges_spec p _ g1 g1 [] r.1 r.2 (sim_refl g1) (by rw [← hmerge])
          have hdeps' : r.2 = extra := by simpa using hdeps
          refine ⟨g1, r.1, henter, by rw [← hmerge], ?_, ?_, ?_⟩
          · show r.2.length = _
            rw [hdeps']
            exact hlen
          · intro i m hgm
            obtain ⟨e, v, he, hv, hx⟩ := hidx i m hgm
            refine ⟨e, v, he, hv, ?_⟩
            show r.2.get? i = some v
            rw [hdeps']
            exact hx
          · intro Hno m hm o ho hinv
            have hsev := rewireMerges_severs p _ g1 [] r.1 r.2 (by rw [← hmerge])
              (fun v hv m2 hm2 o2 ho2 => Hno v hv m2 hm2 o2 ho2) m hm o ho
            exact replaceAllInputsIn_noOldRefs_preserve hsev [lc.name] lco invalidInputId hinv

/-- C6 witness scenario: one loop variable, whose merge node is reached as a
boundary when cropping the condition subgraph (`Less` compares the merge
output against a constant bound). -/
def C6e : Node := { name := "ent", type := "Enter", input := ["init0"], output := ["e0"] }
def C6ni : Node := { name := "ni", type := "NextIteration", input := ["body0"], output := ["ni0"] }
def C6m : Node := { name := "m", type := "Merge", input := ["e0", "ni0"], output := ["m0"] }
def C6less : Node := { name := "less", type := "Less", input := ["m0", "c0"], output := ["p0"] }
def C6cst : Node :=
  { name := "cst", type := "Const", input := [], output := ["c0"], isConst := true }
def C6lc : Node := { name := "lc", type := "LoopCond", input := ["p0"], output := ["lc0"] }
def C6s : Node := { name := "s", type := "Switch", input := ["m0", "lc0"], output := ["s0", "s1"] }
def C6G : Graph := { nodes := [C6e, C6ni, C6m, C6less, C6cst, C6lc, C6s], outputs := [] }

def C6v : LoopVariable :=
  { enter_name := "ent", enter_input_id := "init0", next_iteration_input := "body0",
    switch_true_identity_output := some "id0", exit_output := none,
    is_tensor_array := false, ta_index_id := none }

def C6props : LoopProperties := { state_variables := [("ent", C6v)] }

/-- The graph after cropping: the non-switch consumer `less` now reads the
body-entry tensor `id0` instead of the merge output `m0`. -/
def C6g3 : Graph :=
  { nodes := [C6e, C6ni, C6m,
      { name := "less", type := "Less", input := ["id0", "c0"], output := ["p0"] },
      C6cst, C6lc, C6s], outputs := [] }

def C6info : GraphInfoM :=
  { nodes := [{ name := "less", type := "Less", input := ["id0", "c0"], output := ["p0"] }],
    inputs := [], outputs := ["p0"], dependent_vars := [C6v] }

theorem c6_witness :
    (C6info.dependent_vars.length = (findSubgraph C6G [] ["p0"] true).2.2.length) ∧
    (∀ n ∈ C6g3.nodes, ¬ n.type = "Switch" → ¬ n.input.contains "m0" = true) := by
  obtain ⟨g1, g2, he, hr, hlen, hidx, hsev⟩ :=
    c6_condition_dependencies C6G C6lc C6props C6g3 C6info "p0" (by rfl) (by rfl)
  refine ⟨hlen, ?_⟩
  exact hsev (by decide) C6m (by decide) "m0" (by decide) (by decide)

/-- C9: when the parent graph declares no outputs, the cleanup phase of
`run_internal` is skipped entirely and the graph keeps every node. -/
theorem c9_no_cleanup_without_outputs (g : Graph) (h : g.outputs = []) :
    runInternalCleanup g = g := by
  unfold runInternalCleanup
  rw [h]
  rfl

/-- `C9G` has a node unreachable from any output (there are no outputs). -/
def C9orphan : Node := { name := "orphan", type := "Abs", input := ["z0"], output := ["o0"] }
def C9G : Graph := { nodes := [C9orphan], outputs := [] }

theorem c9_witness : runInternalCleanup C9G = C9G :=
  c9_no_cleanup_without_outputs C9G rfl

end TfOnnx
